import Mathlib

/-!
Verification development for the index update orchestration engine of
zim/notebook/index/__init__.py (class Index and class IndexUpdateIter).

The cache database is embedded as explicit record states; sqlite effects
become pure state transformers, commits become copying the current state
into the committed state of a session, and Python exceptions become an
explicit error type.  The domain indexers, the staleness checker and the
signal mixin are external collaborators whose code is not part of this
module; where a definition depends on them it is modelled from the spec
and marked as such in its doc comment.
-/

namespace Zim

/-- A row of the zim_index property table: (key TEXT unique, value TEXT). -/
structure PropRow where
  key : String
  value : String
deriving DecidableEq

/-- A row of the files table: id, path relative to the layout root and the
index_status flag (true means STATUS_NEED_UPDATE).  The stored content
state is abstracted into a natural number version. -/
structure FileRow where
  id : Nat
  path : String
  version : Nat
  needUpdate : Bool
deriving DecidableEq

/-- A row of the pages table: id, unique name, and whether the page has
real (authored) content; a row without content is a placeholder. -/
structure PageRow where
  id : Nat
  name : String
  hasContent : Bool
deriving DecidableEq

/-- Link relation kinds (HREF_REL_ABSOLUTE and the rest). -/
inductive LinkRel
  | absolute
  | relative
deriving DecidableEq

/-- A row of the links table: (source, target, rel, names). -/
structure LinkRow where
  source : Nat
  target : Nat
  rel : LinkRel
  names : String
deriving DecidableEq

/-- The cache database.  props is the zim_index table; it is an Option so
that the state in which the table itself is missing (a never initialized
db file, sqlite3.OperationalError on read) is representable.  The other
tables belong to the indexer pipeline. -/
structure DB where
  props : Option (List PropRow)
  files : List FileRow
  pages : List PageRow
  links : List LinkRow
  tags : List Nat
deriving DecidableEq

/-- A database session: the durably committed state and the current
in-memory state of the open connection.  db.commit() copies current into
committed; uncommitted work is lost when a run is abandoned. -/
structure Session where
  committed : DB
  current : DB
deriving DecidableEq

/-- Python-level exceptions that can escape the modelled code paths. -/
inductive PyErr
  | typeError
  | valueError
  | assertionError
  | attributeError
  | operationalError
deriving DecidableEq

/-- DB_VERSION = '0.7' (line 27 of the source). -/
def DB_VERSION : String := "0.7"

/-- Modelled from the spec: ROOT_ID, the reserved root sentinel page id
(id 0), exported by the pages indexer module. -/
def ROOT_ID : Nat := 0

/-- The freshly initialized database produced by Index._db_init: the
zim_index table recreated and seeded with the db_version row, and every
indexer of the reconstructed pipeline creating its own empty schema
(the pages schema is seeded with the root sentinel row, modelled from the
spec since the pages indexer is an external collaborator). -/
def freshDB : DB :=
  { props := some [⟨"db_version", DB_VERSION⟩]
  , files := []
  , pages := [⟨ROOT_ID, "", false⟩]
  , links := []
  , tags := [] }

/-- Index._db_init (lines 97-115): drop every existing table, recreate
zim_index with the db_version row, reconstruct the indexer pipeline so
each indexer creates its schema, then commit. -/
def _db_init (_s : Session) : Session :=
  ⟨freshDB, freshDB⟩

/-- Index.get_property (lines 117-120): SELECT value FROM zim_index WHERE
key=?; fetchone maps to find?.  Reading while the zim_index table is
missing raises sqlite3.OperationalError. -/
def get_property (db : DB) (key : String) : Except PyErr (Option String) :=
  match db.props with
  | none => Except.error PyErr.operationalError
  | some rows =>
      Except.ok ((rows.find? (fun r => r.key == key)).map (fun r => r.value))

/-- Index.set_property (lines 122-127): value None deletes the row,
otherwise INSERT OR REPLACE keyed by the uniqueness of key (sqlite
replace semantics: conflicting rows are removed, the new row inserted). -/
def set_property (db : DB) (key : String) (value : Option String) :
    Except PyErr DB :=
  match db.props with
  | none => Except.error PyErr.operationalError
  | some rows =>
      match value with
      | none =>
          Except.ok { db with props := some (rows.filter (fun r => r.key != key)) }
      | some v =>
          Except.ok
            { db with props := some (rows.filter (fun r => r.key != key) ++ [⟨key, v⟩]) }

/-- The state of the on-disk store as seen by the freshly opened
connection: either readable as the expected cache format (possibly with
missing tables or a stale version), or structurally corrupt, in which
case every read raises sqlite3.DatabaseError. -/
inductive Store
  | readable (db : DB)
  | corrupt

/-- Index._db_check (lines 71-93).  Reading db_version and comparing with
DB_VERSION; OperationalError (table missing) leads to _db_init; on
DatabaseError the code first asserts the store is not in-memory, and on
the on-disk path then executes self.db.close() - but the object defines
only the attribute _db (set in __init__), never db, so the attribute
lookup raises AttributeError before any recovery step runs. -/
def _db_check (dbpath : String) (store : Store) : Except PyErr Session :=
  match store with
  | Store.readable db =>
      match get_property db "db_version" with
      | Except.ok v =>
          if v = some DB_VERSION then Except.ok ⟨db, db⟩
          else Except.ok (_db_init ⟨db, db⟩)
      | Except.error _ => Except.ok (_db_init ⟨db, db⟩)
  | Store.corrupt =>
      if dbpath = ":memory:" then Except.error PyErr.assertionError
      else Except.error PyErr.attributeError

/-- Index.flush (lines 145-149): delete all data in the index, i.e.
_db_init under the lock. -/
def flush (s : Session) : Session :=
  _db_init s

/-- Index.flag_reindex (lines 151-160): implemented as self.flush(). -/
def flag_reindex (s : Session) : Session :=
  flush s

/-- The kind of a storage node passed to update_file: a File, a Folder,
or any other object (isinstance checks fail for both). -/
inductive NodeKind
  | file
  | folder
  | other
deriving DecidableEq

/-- A storage node: kind, path relative to the layout root, existence in
storage, and an abstract content version used by the indexer effects. -/
structure Node where
  kind : NodeKind
  path : String
  existsOnDisk : Bool
  version : Nat
deriving DecidableEq

/-- Observable notifications emitted on the update_file code path. -/
inductive Ev
  | startUpdate
  | finishUpdate
  | changed
deriving DecidableEq

/-- A fresh files-table row id: one larger than every existing id. -/
def newFileId (files : List FileRow) : Nat :=
  files.foldr (fun r m => max r.id m) 0 + 1

/-- Modelled from the spec: FilesIndexer.update_file(node_id, file), the
per-row update entry point of the files indexer (external collaborator):
refresh the stored state of the row and clear its NEED_UPDATE flag. -/
def filesUpdateFile (nodeId : Nat) (node : Node) (db : DB) : DB :=
  { db with files := db.files.map (fun r =>
      if r.id == nodeId then { r with version := node.version, needUpdate := false } else r) }

/-- Modelled from the spec: FilesIndexer.delete_file(node_id), row
deletion once the backing node is confirmed absent. -/
def filesDeleteFile (nodeId : Nat) (db : DB) : DB :=
  { db with files := db.files.filter (fun r => r.id != nodeId) }

/-- Modelled from the spec: FilesIndexer.update_folder(node_id, folder). -/
def filesUpdateFolder (nodeId : Nat) (node : Node) (db : DB) : DB :=
  { db with files := db.files.map (fun r =>
      if r.id == nodeId then { r with version := node.version, needUpdate := false } else r) }

/-- Modelled from the spec: FilesIndexer.delete_folder(node_id). -/
def filesDeleteFolder (nodeId : Nat) (db : DB) : DB :=
  { db with files := db.files.filter (fun r => r.id != nodeId) }

/-- Modelled from the spec: FilesIndexer.interactive_add_file(file), the
first-time insertion entry point for a file row. -/
def interactiveAddFile (node : Node) (db : DB) : DB :=
  { db with files := db.files ++ [⟨newFileId db.files, node.path, node.version, false⟩] }

/-- Index.update_file (lines 181-214): look up the files row by relative
path; if no row exists and the node does not exist, do nothing at all;
otherwise emit start-update, dispatch on the node kind and existence
(non File or Folder arguments raise TypeError, a folder without a row
raises ValueError), and on success emit finish-update, commit and fire
the changed notification. -/
def update_file (node : Node) (s : Session) :
    Session × List Ev × Option PyErr :=
  match s.current.files.find? (fun r => r.path == node.path), node.existsOnDisk with
  | none, false => (s, [], none)
  | some r, _ =>
      match node.kind with
      | NodeKind.file =>
          let db := if node.existsOnDisk then filesUpdateFile r.id node s.current
                    else filesDeleteFile r.id s.current
          (⟨db, db⟩, [Ev.startUpdate, Ev.finishUpdate, Ev.changed], none)
      | NodeKind.folder =>
          let db := if node.existsOnDisk then filesUpdateFolder r.id node s.current
                    else filesDeleteFolder r.id s.current
          (⟨db, db⟩, [Ev.startUpdate, Ev.finishUpdate, Ev.changed], none)
      | NodeKind.other => (s, [Ev.startUpdate], some PyErr.typeError)
  | none, true =>
      match node.kind with
      | NodeKind.file =>
          let db := interactiveAddFile node s.current
          (⟨db, db⟩, [Ev.startUpdate, Ev.finishUpdate, Ev.changed], none)
      | NodeKind.folder => (s, [Ev.startUpdate], some PyErr.valueError)
      | NodeKind.other => (s, [Ev.startUpdate], some PyErr.typeError)

/-- The anchor edges: links whose source is the root sentinel. -/
def rootAnchors (db : DB) : List LinkRow :=
  db.links.filter (fun l => l.source == ROOT_ID)

/-- Whether some link points at the given page id. -/
def hasIncoming (links : List LinkRow) (pid : Nat) : Bool :=
  links.any (fun l => l.target == pid)

/-- Modelled from the spec: the keep condition of placeholder cleanup - a
page survives if it has real content, is the root sentinel, or still has
an incoming link. -/
def keepPage (links : List LinkRow) (p : PageRow) : Bool :=
  p.hasContent || p.id == ROOT_ID || hasIncoming links p.id

/-- Modelled from the spec: LinksIndexer.cleanup_placeholders (external
collaborator): remove orphaned placeholder pages - no content, not the
root sentinel, no incoming link - together with their now-dangling
outgoing edges. -/
def cleanup_placeholders (db : DB) : DB :=
  let kept := db.pages.filter (keepPage db.links)
  { db with
      pages := kept
    , links := db.links.filter (fun l =>
        l.source == ROOT_ID || kept.any (fun p => p.id == l.source)) }

/-- A fresh pages-table row id: one larger than every existing id. -/
def newPageId (pages : List PageRow) : Nat :=
  pages.foldr (fun p m => max p.id m) 0 + 1

/-- DELETE FROM links WHERE source=ROOT_ID (lines 238-241). -/
def delRootLinks (db : DB) : DB :=
  { db with links := db.links.filter (fun l => !(l.source == ROOT_ID)) }

/-- Lines 244-255 of touch_current_page_placeholder: look up the page row
by name; if absent, insert a placeholder page via the pages indexer
(modelled from the spec: PagesIndexer.insert_link_placeholder returns a
fresh page id) and add the root-sourced anchor link to it. -/
def touchInsert (name : String) (db : DB) : DB :=
  match db.pages.find? (fun p => p.name == name) with
  | some _ => db
  | none =>
      { db with
          pages := db.pages ++ [⟨newPageId db.pages, name, false⟩]
        , links := db.links ++ [⟨ROOT_ID, newPageId db.pages, LinkRel.absolute, name⟩] }

/-- Index.touch_current_page_placeholder (lines 229-258): delete all
root-sourced anchor links, run placeholder cleanup, insert a placeholder
page plus anchor if no page of that name exists, then commit (and fire
the changed notification). -/
def touch_current_page_placeholder (name : String) (s : Session) : Session :=
  let db3 := touchInsert name (cleanup_placeholders (delRootLinks s.current))
  ⟨db3, db3⟩

/-!
IndexUpdateIter.check_and_update_iter (lines 296-305) is a Python
generator.  We embed a run of the generator as the finite list of
primitive operations it performs, in execution order: the checker side
effect of pulling one item (flag), one updater work item (write), one
yielded work-unit marker (marker), the single db.commit() (commitDB) and
the commit notification (emitCommit).  Pulling the k-th item of the
generator executes exactly the operations up to and including the k-th
marker; the operations after the last consumed marker never run when the
caller stops pulling.  The real filesystem is abstracted as a total map
from paths to content versions.
-/

/-- One primitive operation of a generator run. -/
inductive Op
  | flag (path : String)
  | write (path : String) (v : Nat)
  | marker
  | commitDB
  | emitCommit
deriving DecidableEq

/-- Set the NEED_UPDATE flag on the files row of the given path (the
checker's side effect on disagreement; modelled from the spec). -/
def flagPath (p : String) (files : List FileRow) : List FileRow :=
  files.map (fun r => if r.path == p then { r with needUpdate := true } else r)

/-- Refresh the files row of the given path with the storage content
state and clear its NEED_UPDATE flag (the updater's per-item effect;
modelled from the spec). -/
def writePath (p : String) (v : Nat) (files : List FileRow) : List FileRow :=
  files.map (fun r =>
    if r.path == p then { r with version := v, needUpdate := false } else r)

/-- Effect of one operation on the in-memory files table; markers and
notifications have none, commitDB is handled at the session level. -/
def applyOp (files : List FileRow) : Op → List FileRow
  | Op.flag p => flagPath p files
  | Op.write p v => writePath p v files
  | _ => files

/-- Effect of a list of operations on the in-memory files table. -/
def applyOps (ops : List Op) (files : List FileRow) : List FileRow :=
  ops.foldl applyOp files

/-- Effect of one operation on a session: commitDB copies the current
state into the committed state, every other operation acts on the
current in-memory state only. -/
def stepSession (s : Session) (op : Op) : Session :=
  match op with
  | Op.commitDB => { s with committed := s.current }
  | _ => { s with current := { s.current with files := applyOp s.current.files op } }

/-- Run a list of operations on a session. -/
def runSession (s : Session) (ops : List Op) : Session :=
  ops.foldl stepSession s

/-- Modelled from the spec: pulling one item of
FilesIndexChecker.check_iter for path p - compare the stored state of the
row with the real file tree; on disagreement flag the row NEED_UPDATE as
a side effect and report true. -/
def checkOp (fs : String → Nat) (p : String) (files : List FileRow) :
    Bool × List Op :=
  match files.find? (fun r => r.path == p) with
  | some r => if r.version == fs p then (false, []) else (true, [Op.flag p])
  | none => (false, [])

/-- The write-then-yield operation pairs of one update pass, one pair per
row of the worklist. -/
def writeOpsFor (fs : String → Nat) : List FileRow → List Op
  | [] => []
  | r :: rest => Op.write r.path (fs r.path) :: Op.marker :: writeOpsFor fs rest

/-- Modelled from the spec: one full incremental pass of
FilesIndexer.update_iter - the worklist is re-derived from the persisted
NEED_UPDATE flags of the current files table; one marker per item. -/
def updatePassOps (fs : String → Nat) (files : List FileRow) : List Op :=
  writeOpsFor fs (files.filter (fun r => r.needUpdate))

/-- The loop of check_and_update_iter (lines 299-303): for each queued
item, pull the checker (side effect, then yield a marker); if the pulled
boolean was true, immediately drive a full update pass (one marker per
updated item) before pulling the next checker item. -/
def cauiLoopOps (fs : String → Nat) (queue : List String)
    (files : List FileRow) : List Op :=
  match queue with
  | [] => []
  | p :: ps =>
      let c := checkOp fs p files
      let f1 := applyOps c.2 files
      let pass := if c.1 then updatePassOps fs f1 else []
      let f2 := applyOps pass f1
      c.2 ++ Op.marker :: (pass ++ cauiLoopOps fs ps f2)

/-- IndexUpdateIter.check_and_update_iter (lines 296-305): the loop over
the checker's queue, then the single db.commit() and the single commit
notification at the very end of the generator. -/
def check_and_update_iterOps (fs : String → Nat) (queue : List String)
    (files : List FileRow) : List Op :=
  cauiLoopOps fs queue files ++ [Op.commitDB, Op.emitCommit]

/-- The check phase as the spec's claim describes it: pull the checker's
entire boolean sequence first, yielding one marker per item, and record
whether any pulled boolean was true.  Returns (operations, any-true,
final files state). -/
def checkPhaseOps (fs : String → Nat) (queue : List String)
    (files : List FileRow) : List Op × Bool × List FileRow :=
  match queue with
  | [] => ([], false, files)
  | p :: ps =>
      let c := checkOp fs p files
      let f1 := applyOps c.2 files
      let r := checkPhaseOps fs ps f1
      (c.2 ++ Op.marker :: r.1, c.1 || r.2.1, r.2.2)

/-- The protocol as the spec's claim describes it (two strict phases):
the complete check phase, then, only if at least one pulled boolean was
true, a single full incremental update pass, then commit and notify. -/
def claimedTwoPhaseOps (fs : String → Nat) (queue : List String)
    (files : List FileRow) : List Op :=
  let r := checkPhaseOps fs queue files
  let pass := if r.2.1 then updatePassOps fs r.2.2 else []
  r.1 ++ pass ++ [Op.commitDB, Op.emitCommit]

/-- The operations executed when the caller pulls the generator k times
and then stops: everything up to and including the k-th marker. -/
def takeMarkers : Nat → List Op → List Op
  | 0, _ => []
  | _ + 1, [] => []
  | k + 1, op :: rest =>
      op :: (if op == Op.marker then takeMarkers k rest else takeMarkers (k + 1) rest)

/-- The simultaneous form of one full update pass: every flagged row is
refreshed from the file tree and unflagged. -/
def updateAll (fs : String → Nat) (files : List FileRow) : List FileRow :=
  files.map (fun r =>
    if r.needUpdate then { r with version := fs r.path, needUpdate := false } else r)

/-! Concrete inputs used by witnesses and counterexamples. -/

/-- A database carrying a stale schema version and leftover data. -/
def exDbStale : DB :=
  { props := some [⟨"db_version", "0.6"⟩]
  , files := [⟨1, "a.txt", 0, false⟩]
  , pages := [⟨ROOT_ID, "", false⟩, ⟨1, "A", true⟩]
  , links := []
  , tags := [7] }

/-- A database whose zim_index table exists but is empty. -/
def exDbEmptyProps : DB :=
  { props := some [], files := [], pages := [], links := [], tags := [] }

/-- A database in which page Q exists as a content-less placeholder kept
alive by a link from the content page A. -/
def exDbC5 : DB :=
  { props := some [⟨"db_version", DB_VERSION⟩]
  , files := []
  , pages := [⟨ROOT_ID, "", false⟩, ⟨1, "A", true⟩, ⟨2, "Q", false⟩]
  , links := [⟨1, 2, LinkRel.absolute, "Q"⟩]
  , tags := [] }

/-- A node with no cache row that does not exist in storage. -/
def exNodeC6 : Node := ⟨NodeKind.file, "nope", false, 0⟩

/-- A node that is neither a File nor a Folder but exists in storage. -/
def exNodeC10 : Node := ⟨NodeKind.other, "x", true, 0⟩

/-- A file tree in which every path has content version 0. -/
def exFs0 : String → Nat := fun _ => 0

/-- A file tree in which every path has content version 1. -/
def exFs1 : String → Nat := fun _ => 1

/-- A database whose single files row disagrees with exFs0. -/
def exDbC1 : DB :=
  { props := some [⟨"db_version", DB_VERSION⟩]
  , files := [⟨1, "a", 1, false⟩]
  , pages := [⟨ROOT_ID, "", false⟩]
  , links := []
  , tags := [] }

/-- Two files rows that both disagree with exFs1. -/
def exFilesC2 : List FileRow := [⟨1, "a", 0, false⟩, ⟨2, "b", 0, false⟩]

/-!
Helper lemmas (shared, not tied to any single claim).
-/

/-- find? for a key never finds anything in the rows filtered to other
keys. -/
theorem find?_filter_ne (rows : List PropRow) (k : String) :
    (rows.filter (fun r => r.key != k)).find? (fun r => r.key == k) = none := by
  induction rows with
  | nil => rfl
  | cons r rest ih =>
      by_cases h : r.key = k
      · simp [List.filter_cons, h, ih]
      · simp [List.filter_cons, h, List.find?_cons, beq_iff_eq, ih]

/-- find? for a key on filtered-out rows followed by the fresh row finds
exactly the fresh row. -/
theorem find?_filter_ne_append (rows : List PropRow) (k v : String) :
    ((rows.filter (fun r => r.key != k)) ++ [(⟨k, v⟩ : PropRow)]).find?
      (fun r => r.key == k) = some ⟨k, v⟩ := by
  induction rows with
  | nil => simp [List.find?_cons]
  | cons r rest ih =>
      by_cases h : r.key = k
      · simp [List.filter_cons, h, ih]
      · simp [List.filter_cons, h, List.find?_cons, beq_iff_eq, ih]

/-- A filter over a list on which the predicate is everywhere false is
empty. -/
theorem filter_nil_of_false {α : Type} (p : α → Bool) (l : List α)
    (h : ∀ a ∈ l, p a = false) : l.filter p = [] := by
  induction l with
  | nil => rfl
  | cons a rest ih =>
      rw [List.filter_cons, h a (List.mem_cons_self a rest)]
      exact ih (fun b hb => h b (List.mem_cons_of_mem a hb))

/-- A filter over a list on which the predicate is everywhere true is the
list itself. -/
theorem filter_self_of_true {α : Type} (p : α → Bool) (l : List α)
    (h : ∀ a ∈ l, p a = true) : l.filter p = l := by
  induction l with
  | nil => rfl
  | cons a rest ih =>
      rw [List.filter_cons, h a (List.mem_cons_self a rest)]
      simp [ih (fun b hb => h b (List.mem_cons_of_mem a hb))]

/-- any is false when the predicate is false on every element. -/
theorem any_false_of {α : Type} (p : α → Bool) (l : List α)
    (h : ∀ a ∈ l, p a = false) : l.any p = false := by
  induction l with
  | nil => rfl
  | cons a rest ih =>
      rw [List.any_cons, h a (List.mem_cons_self a rest)]
      exact ih (fun b hb => h b (List.mem_cons_of_mem a hb))

/-- Every page id is bounded by the foldr-max over the pages list. -/
theorem le_foldr_max (pages : List PageRow) :
    ∀ p ∈ pages, p.id ≤ pages.foldr (fun q m => max q.id m) 0 := by
  induction pages with
  | nil => intro p hp; cases hp
  | cons q rest ih =>
      intro p hp
      rcases List.mem_cons.mp hp with h | h
      · rw [h]; exact le_max_left _ _
      · exact le_trans (ih p h) (le_max_right _ _)

/-- A freshly allocated page id is strictly larger than every existing
page id. -/
theorem newPageId_gt (pages : List PageRow) :
    ∀ p ∈ pages, p.id < newPageId pages := fun p hp =>
  Nat.lt_succ_of_le (le_foldr_max pages p hp)

/-- Placeholder cleanup only removes pages. -/
theorem cleanup_pages_sub (db : DB) :
    ∀ p ∈ (cleanup_placeholders db).pages, p ∈ db.pages := fun _ hp =>
  List.mem_of_mem_filter hp

/-- Placeholder cleanup only removes links. -/
theorem cleanup_links_sub (db : DB) :
    ∀ l ∈ (cleanup_placeholders db).links, l ∈ db.links := fun _ hl =>
  List.mem_of_mem_filter hl

/-- Placeholder cleanup preserves the invariant that every link target is
an existing page: a page pointed at by a surviving link has an incoming
link and is therefore kept. -/
theorem cleanup_targets (db : DB)
    (hT : ∀ l ∈ db.links, ∃ p ∈ db.pages, p.id = l.target) :
    ∀ l ∈ (cleanup_placeholders db).links,
      ∃ p ∈ (cleanup_placeholders db).pages, p.id = l.target := by
  intro l hl
  obtain ⟨p, hp, hpt⟩ := hT l (cleanup_links_sub db l hl)
  refine ⟨p, ?_, hpt⟩
  show p ∈ db.pages.filter (keepPage db.links)
  apply List.mem_filter.mpr
  refine ⟨hp, ?_⟩
  unfold keepPage hasIncoming
  have hany : db.links.any (fun l2 => l2.target == p.id) = true :=
    List.any_eq_true.mpr ⟨l, cleanup_links_sub db l hl, by simp [beq_iff_eq, hpt.symm]⟩
  simp [hany]

/-- Deleting the root-sourced links keeps only links of the original
table whose source is not the root sentinel. -/
theorem delRoot_links_mem (db : DB) :
    ∀ l ∈ (delRootLinks db).links, l ∈ db.links ∧ l.source ≠ ROOT_ID := by
  intro l hl
  have h1 := List.mem_of_mem_filter hl
  have h2 := List.of_mem_filter hl
  refine ⟨h1, ?_⟩
  simpa using h2

/-- When no page of the given name exists, touchInsert takes the insert
branch: a fresh placeholder page plus the root-sourced anchor link. -/
theorem touchInsert_not_found (name : String) (db : DB)
    (h : ∀ p ∈ db.pages, p.name ≠ name) :
    touchInsert name db =
      { db with
          pages := db.pages ++ [⟨newPageId db.pages, name, false⟩]
        , links := db.links ++ [⟨ROOT_ID, newPageId db.pages, LinkRel.absolute, name⟩] } := by
  unfold touchInsert
  have hf : db.pages.find? (fun p => p.name == name) = none :=
    List.find?_eq_none.mpr (fun p hp => by simpa [beq_iff_eq] using h p hp)
  rw [hf]

/-- Pages of the cleaned database, as a filter. -/
theorem cleanup_pages_eq (d : DB) :
    (cleanup_placeholders d).pages = d.pages.filter (keepPage d.links) := rfl

/-- Pages are untouched by deleting root links. -/
theorem delRoot_pages_eq (d : DB) : (delRootLinks d).pages = d.pages := rfl

/-- Links after deleting the root-sourced ones, as a filter. -/
theorem delRoot_links_eq (d : DB) :
    (delRootLinks d).links = d.links.filter (fun l => !(l.source == ROOT_ID)) := rfl

/-- Pages inserted by the not-found branch of touchInsert. -/
theorem touchInsert_pages_not_found (name : String) (db : DB)
    (h : ∀ p ∈ db.pages, p.name ≠ name) :
    (touchInsert name db).pages =
      db.pages ++ [⟨newPageId db.pages, name, false⟩] := by
  rw [touchInsert_not_found name db h]

/-- Links inserted by the not-found branch of touchInsert. -/
theorem touchInsert_links_not_found (name : String) (db : DB)
    (h : ∀ p ∈ db.pages, p.name ≠ name) :
    (touchInsert name db).links =
      db.links ++ [⟨ROOT_ID, newPageId db.pages, LinkRel.absolute, name⟩] := by
  rw [touchInsert_not_found name db h]

/-- The keep condition of placeholder cleanup fails for a content-less
non-root page with no incoming link. -/
theorem keepPage_eq_false (links : List LinkRow) (p : PageRow)
    (h1 : p.hasContent = false) (h2 : (p.id == ROOT_ID) = false)
    (h3 : ∀ l ∈ links, (l.target == p.id) = false) :
    keepPage links p = false := by
  unfold keepPage hasIncoming
  rw [h1, h2, any_false_of _ _ h3]
  rfl

/-- The operations of one update pass are only writes and markers. -/
theorem mem_writeOpsFor (fs : String → Nat) (l : List FileRow) :
    ∀ op ∈ writeOpsFor fs l, op ≠ Op.commitDB ∧ op ≠ Op.emitCommit := by
  induction l with
  | nil => intro op h; cases h
  | cons r rest ih =>
      intro op h
      rcases List.mem_cons.mp h with h1 | h1
      · rw [h1]; exact ⟨by simp, by simp⟩
      · rcases List.mem_cons.mp h1 with h2 | h2
        · rw [h2]; exact ⟨by simp, by simp⟩
        · exact ih op h2

/-- The operations of one checker pull are only flags. -/
theorem mem_checkOpSnd (fs : String → Nat) (p : String) (files : List FileRow) :
    ∀ op ∈ (checkOp fs p files).2, op ≠ Op.commitDB ∧ op ≠ Op.emitCommit := by
  intro op h
  unfold checkOp at h
  cases hf : files.find? (fun r => r.path == p) with
  | none => rw [hf] at h; cases h
  | some r =>
      rw [hf] at h
      by_cases hv : (r.version == fs p) = true
      · simp [hv] at h
      · simp [hv] at h
        rw [h]
        exact ⟨by simp, by simp⟩

/-- The loop of check_and_update_iter performs no commit and emits no
commit notification: those happen only in the tail of the generator. -/
theorem mem_cauiLoopOps (fs : String → Nat) (queue : List String) :
    ∀ (files : List FileRow), ∀ op ∈ cauiLoopOps fs queue files,
      op ≠ Op.commitDB ∧ op ≠ Op.emitCommit := by
  induction queue with
  | nil => intro files op h; cases h
  | cons p ps ih =>
      intro files op h
      unfold cauiLoopOps at h
      rcases List.mem_append.mp h with h1 | h1
      · exact mem_checkOpSnd fs p files op h1
      · rcases List.mem_cons.mp h1 with h2 | h2
        · rw [h2]; exact ⟨by simp, by simp⟩
        · rcases List.mem_append.mp h2 with h3 | h3
          · by_cases hc : (checkOp fs p files).1 = true
            · rw [if_pos hc] at h3
              exact mem_writeOpsFor fs _ op h3
            · rw [if_neg hc] at h3; cases h3
          · exact ih _ op h3

/-- Operations selected by consuming k markers come from the original
list. -/
theorem takeMarkers_mem (l : List Op) :
    ∀ (k : Nat), ∀ op ∈ takeMarkers k l, op ∈ l := by
  induction l with
  | nil =>
      intro k op h
      cases k with
      | zero => cases h
      | succ n => cases h
  | cons a rest ih =>
      intro k op h
      cases k with
      | zero => cases h
      | succ n =>
          rw [takeMarkers] at h
          rcases List.mem_cons.mp h with h1 | h1
          · rw [h1]; exact List.mem_cons_self a rest
          · by_cases hb : (a == Op.marker) = true
            · rw [if_pos hb] at h1
              exact List.mem_cons_of_mem a (ih n op h1)
            · rw [if_neg hb] at h1
              exact List.mem_cons_of_mem a (ih (n + 1) op h1)

/-- Consuming at most the number of markers of the head list never
reaches the appended tail. -/
theorem takeMarkers_append (l2 : List Op) :
    ∀ (l : List Op) (k : Nat), k ≤ l.count Op.marker →
      takeMarkers k (l ++ l2) = takeMarkers k l := by
  intro l
  induction l with
  | nil =>
      intro k hk
      have hz : k = 0 := Nat.le_zero.mp (by simpa using hk)
      rw [hz]
      simp [takeMarkers]
  | cons a rest ih =>
      intro k hk
      cases k with
      | zero => rfl
      | succ n =>
          rw [List.cons_append, takeMarkers, takeMarkers]
          by_cases hb : (a == Op.marker) = true
          · rw [if_pos hb, if_pos hb]
            have ha : a = Op.marker := by simpa using hb
            have hcount : rest.count Op.marker + 1 = (a :: rest).count Op.marker := by
              rw [ha]; simp [List.count_cons]
            have hn : n ≤ rest.count Op.marker := by
              have := hk
              rw [← hcount] at this
              exact Nat.le_of_succ_le_succ this
            rw [ih n hn]
          · rw [if_neg hb, if_neg hb]
            have ha : ¬(a = Op.marker) := by simpa using hb
            have hcount : (a :: rest).count Op.marker = rest.count Op.marker := by
              simp [List.count_cons, ha]
            have hn : n + 1 ≤ rest.count Op.marker := by rw [← hcount]; exact hk
            rw [ih (n + 1) hn]

/-- Running operations that contain no commitDB leaves the committed
state untouched. -/
theorem runSession_committed (ops : List Op) :
    ∀ (s : Session), Op.commitDB ∉ ops →
      (runSession s ops).committed = s.committed := by
  induction ops with
  | nil => intro s _; rfl
  | cons op rest ih =>
      intro s h
      have h1 : op ≠ Op.commitDB := fun he => h (he ▸ List.mem_cons_self op rest)
      have h2 : Op.commitDB ∉ rest := fun hm => h (List.mem_cons_of_mem op hm)
      have hstep : (stepSession s op).committed = s.committed := by
        cases op with
        | commitDB => exact absurd rfl h1
        | _ => rfl
      have hrun : runSession s (op :: rest) = runSession (stepSession s op) rest := rfl
      rw [hrun, ih (stepSession s op) h2, hstep]

/-- Flagging preserves the sequence of paths. -/
theorem paths_flagPath (p : String) (f : List FileRow) :
    (flagPath p f).map (fun r => r.path) = f.map (fun r => r.path) := by
  unfold flagPath
  rw [List.map_map]
  apply List.map_congr_left
  intro a _
  simp only [Function.comp_apply]
  split <;> rfl

/-- Writing preserves the sequence of paths. -/
theorem paths_writePath (p : String) (v : Nat) (f : List FileRow) :
    (writePath p v f).map (fun r => r.path) = f.map (fun r => r.path) := by
  unfold writePath
  rw [List.map_map]
  apply List.map_congr_left
  intro a _
  simp only [Function.comp_apply]
  split <;> rfl

/-- One operation preserves the sequence of paths of the files table. -/
theorem paths_applyOp (f : List FileRow) (op : Op) :
    (applyOp f op).map (fun r => r.path) = f.map (fun r => r.path) := by
  cases op with
  | flag p => exact paths_flagPath p f
  | write p v => exact paths_writePath p v f
  | marker => rfl
  | commitDB => rfl
  | emitCommit => rfl

/-- A run of operations preserves the sequence of paths. -/
theorem paths_applyOps (ops : List Op) :
    ∀ f : List FileRow,
      (applyOps ops f).map (fun r => r.path) = f.map (fun r => r.path) := by
  induction ops with
  | nil => intro f; rfl
  | cons op rest ih =>
      intro f
      have h1 : applyOps (op :: rest) f = applyOps rest (applyOp f op) := rfl
      rw [h1, ih (applyOp f op), paths_applyOp]

/-- The one-pass update preserves the sequence of paths. -/
theorem paths_updateAll (fs : String → Nat) (f : List FileRow) :
    (updateAll fs f).map (fun r => r.path) = f.map (fun r => r.path) := by
  unfold updateAll
  rw [List.map_map]
  apply List.map_congr_left
  intro a _
  simp only [Function.comp_apply]
  split <;> rfl

/-- Members with equal images under a map with no duplicate images are
equal. -/
theorem nodup_map_inj {α β : Type} {f : α → β} {l : List α}
    (h : (l.map f).Nodup) {a b : α} (ha : a ∈ l) (hb : b ∈ l)
    (hf : f a = f b) : a = b := by
  induction l with
  | nil => cases ha
  | cons x rest ih =>
      rw [List.map_cons] at h
      have h' := List.nodup_cons.mp h
      rcases List.mem_cons.mp ha with ha1 | ha1 <;>
        rcases List.mem_cons.mp hb with hb1 | hb1
      · rw [ha1, hb1]
      · exfalso
        apply h'.1
        rw [ha1] at hf
        rw [hf]
        exact List.mem_map_of_mem f hb1
      · exfalso
        apply h'.1
        rw [hb1] at hf
        rw [← hf]
        exact List.mem_map_of_mem f ha1
      · exact ih h'.2 ha1 hb1

/-- Setting the flag of an already flagged row is the identity. -/
theorem setFlag_id (x : FileRow) (h : x.needUpdate = true) :
    ({ x with needUpdate := true } : FileRow) = x := by
  cases x
  simp_all

/-- Appending commit and notification operations does not change the
files-level state. -/
theorem applyOps_append (a b : List Op) (f : List FileRow) :
    applyOps (a ++ b) f = applyOps b (applyOps a f) := by
  unfold applyOps
  rw [List.foldl_append]

/-- The witness returned by find? satisfies the predicate. -/
theorem find?_pred {A : Type} (p : A → Bool) (l : List A) (a : A)
    (h : l.find? p = some a) : p a = true := by
  induction l with
  | nil => cases h
  | cons x rest ih =>
      rw [List.find?_cons] at h
      cases hx : p x with
      | true =>
          rw [hx] at h
          injection h with he
          rw [← he]
          exact hx
      | false =>
          rw [hx] at h
          exact ih h

/-- Row lookup by path commutes with the one-pass update. -/
theorem find?_updateAll (fs : String → Nat) (p : String) (f : List FileRow) :
    (updateAll fs f).find? (fun r => r.path == p) =
      (f.find? (fun r => r.path == p)).map
        (fun r => if r.needUpdate then
          { r with version := fs r.path, needUpdate := false } else r) := by
  induction f with
  | nil => rfl
  | cons r rest ih =>
      by_cases h : (r.path == p) = true
      · by_cases hn : r.needUpdate = true
        · simp [updateAll, List.find?_cons, h, hn]
        · simp [updateAll, List.find?_cons, h, hn]
      · by_cases hn : r.needUpdate = true
        · simpa [updateAll, List.find?_cons, h, hn] using ih
        · simpa [updateAll, List.find?_cons, h, hn] using ih

/-- Driving the write-and-yield operations of a worklist with pairwise
distinct paths equals one simultaneous map over the table. -/
theorem applyOps_writeOpsFor (fs : String → Nat) (todo : List FileRow)
    (hnodup : (todo.map (fun r => r.path)).Nodup) :
    ∀ g : List FileRow,
      applyOps (writeOpsFor fs todo) g =
        g.map (fun r => if todo.any (fun t => t.path == r.path)
          then { r with version := fs r.path, needUpdate := false } else r) := by
  induction todo with
  | nil =>
      intro g
      simp [writeOpsFor, applyOps]
  | cons t ts ih =>
      intro g
      rw [List.map_cons] at hnodup
      have h' := List.nodup_cons.mp hnodup
      have h1 : applyOps (writeOpsFor fs (t :: ts)) g =
          applyOps (writeOpsFor fs ts) (writePath t.path (fs t.path) g) := rfl
      rw [h1, ih h'.2 (writePath t.path (fs t.path) g), writePath, List.map_map]
      apply List.map_congr_left
      intro r _
      simp only [Function.comp_apply]
      by_cases hp : (r.path == t.path) = true
      · have hpe : r.path = t.path := by simpa using hp
        rw [if_pos hp]
        have hts : ts.any (fun t2 =>
            t2.path == ({ r with version := fs t.path, needUpdate := false} : FileRow).path)
              = false := by
          apply any_false_of
          intro t2 ht2
          have : t2.path ≠ t.path := by
            intro he
            exact h'.1 (he ▸ List.mem_map_of_mem (fun x => x.path) ht2)
          simp [hpe, this]
        rw [hts]
        simp [List.any_cons, hpe]
      · rw [if_neg hp]
        have hpt : (t.path == r.path) = false := by
          have : ¬(r.path = t.path) := by simpa using hp
          simp [beq_eq_false_iff_ne]
          exact fun he => this he.symm
        simp [List.any_cons, hpt]

/-- Under path uniqueness, one driven update pass over the flagged
worklist equals the simultaneous one-pass update. -/
theorem applyOps_updatePassOps (fs : String → Nat) (f : List FileRow)
    (h : (f.map (fun r => r.path)).Nodup) :
    applyOps (updatePassOps fs f) f = updateAll fs f := by
  have hsub : List.Sublist ((f.filter (fun r => r.needUpdate)).map (fun r => r.path))
      (f.map (fun r => r.path)) := List.Sublist.map _ (List.filter_sublist f)
  have hnodup := h.sublist hsub
  rw [updatePassOps, applyOps_writeOpsFor fs _ hnodup f]
  unfold updateAll
  apply List.map_congr_left
  intro r hr
  by_cases hn : r.needUpdate = true
  · have hmem : r ∈ f.filter (fun r => r.needUpdate) :=
      List.mem_filter.mpr ⟨hr, hn⟩
    have hany : (f.filter (fun r => r.needUpdate)).any
        (fun t => t.path == r.path) = true :=
      List.any_eq_true.mpr ⟨r, hmem, by simp⟩
    simp [hany, hn]
  · have hany : (f.filter (fun r => r.needUpdate)).any
        (fun t => t.path == r.path) = false := by
      apply any_false_of
      intro t ht
      have htf : t ∈ f := List.mem_of_mem_filter ht
      have htn : t.needUpdate = true := by
        have := List.of_mem_filter ht
        simpa using this
      rw [beq_eq_false_iff_ne]
      intro he
      exact hn (nodup_map_inj h htf hr he ▸ htn)
    rw [hany]
    simp [hn]

/-- Flagging a path whose (unique) row is already flagged changes
nothing. -/
theorem flagPath_eq_self (p : String) (f : List FileRow)
    (h : (f.map (fun r => r.path)).Nodup) (row : FileRow)
    (hfind : f.find? (fun r => r.path == p) = some row)
    (hn : row.needUpdate = true) : flagPath p f = f := by
  have hrow : row ∈ f := List.mem_of_find?_eq_some hfind
  have hrowp : (row.path == p) = true := find?_pred _ f row hfind
  unfold flagPath
  have : ∀ r ∈ f, (if (r.path == p) = true
      then ({ r with needUpdate := true } : FileRow) else r) = r := by
    intro r hr
    by_cases hp : (r.path == p) = true
    · have hre : r = row := by
        apply nodup_map_inj h hr hrow
        have h1 : r.path = p := by simpa using hp
        have h2 : row.path = p := by simpa using hrowp
        rw [h1, h2]
      rw [if_pos hp, hre]
      exact setFlag_id row hn
    · rw [if_neg hp]
  calc f.map (fun r => if r.path == p then ({ r with needUpdate := true } : FileRow) else r)
      = f.map (fun r => r) := List.map_congr_left this
    _ = f := List.map_id' f

/-- Re-running the one-pass update after flagging one path of an already
updated table equals updating the flagged original table: per row, both
sides resolve to the same refreshed record. -/
theorem updateAll_flag_updateAll (fs : String → Nat) (p : String)
    (c : List FileRow) :
    updateAll fs (flagPath p (updateAll fs c)) = updateAll fs (flagPath p c) := by
  unfold updateAll flagPath
  simp only [List.map_map]
  apply List.map_congr_left
  intro r _
  simp only [Function.comp_apply]
  by_cases hp : (r.path == p) = true <;> by_cases hn : r.needUpdate = true <;>
    simp [hp, hn]

/-- applyOps on the empty operation list. -/
theorem applyOps_nil (f : List FileRow) : applyOps [] f = f := rfl

/-- applyOps peels one operation. -/
theorem applyOps_cons (op : Op) (ops : List Op) (f : List FileRow) :
    applyOps (op :: ops) f = applyOps ops (applyOp f op) := rfl

/-- A marker has no state effect. -/
theorem applyOp_marker (f : List FileRow) : applyOp f Op.marker = f := rfl

/-- A flag operation flags the path. -/
theorem applyOp_flag (p : String) (f : List FileRow) :
    applyOp f (Op.flag p) = flagPath p f := rfl

/-- One unfolding step of the interleaved loop. -/
theorem cauiLoopOps_cons (fs : String → Nat) (p : String) (ps : List String)
    (x : List FileRow) :
    cauiLoopOps fs (p :: ps) x =
      (checkOp fs p x).2 ++ Op.marker ::
        ((if (checkOp fs p x).1 then updatePassOps fs (applyOps (checkOp fs p x).2 x) else []) ++
          cauiLoopOps fs ps
            (applyOps
              (if (checkOp fs p x).1 then updatePassOps fs (applyOps (checkOp fs p x).2 x) else [])
              (applyOps (checkOp fs p x).2 x))) := rfl

/-- One unfolding step of the strict check phase. -/
theorem checkPhaseOps_cons (fs : String → Nat) (p : String) (ps : List String)
    (x : List FileRow) :
    checkPhaseOps fs (p :: ps) x =
      ((checkOp fs p x).2 ++ Op.marker ::
          (checkPhaseOps fs ps (applyOps (checkOp fs p x).2 x)).1,
        (checkOp fs p x).1 || (checkPhaseOps fs ps (applyOps (checkOp fs p x).2 x)).2.1,
        (checkPhaseOps fs ps (applyOps (checkOp fs p x).2 x)).2.2) := rfl

/-- Simulation between the interleaved protocol of the code and the
strict two-phase protocol of the claim: with pairwise distinct paths the
interleaved run from a state ends in the same files table as the strict
run (one deferred conditional pass) from the same state; and the
interleaved run started from the once-updated table ends in the updated
strict check-phase result. -/
theorem caui_sim (fs : String → Nat) (queue : List String) :
    ∀ c : List FileRow, (c.map (fun r => r.path)).Nodup →
      (applyOps (cauiLoopOps fs queue c) c =
        (if (checkPhaseOps fs queue c).2.1 = true
          then updateAll fs (checkPhaseOps fs queue c).2.2
          else (checkPhaseOps fs queue c).2.2)) ∧
      (applyOps (cauiLoopOps fs queue (updateAll fs c)) (updateAll fs c) =
        updateAll fs (checkPhaseOps fs queue c).2.2) := by
  induction queue with
  | nil =>
      intro c h
      constructor
      · simp [cauiLoopOps, checkPhaseOps, applyOps_nil]
      · simp [cauiLoopOps, checkPhaseOps, applyOps_nil]
  | cons p ps ih =>
      intro c hnodup
      cases hf : c.find? (fun r => r.path == p) with
      | none =>
          have hco : checkOp fs p c = (false, []) := by simp [checkOp, hf]
          have hcoU : checkOp fs p (updateAll fs c) = (false, []) := by
            simp [checkOp, find?_updateAll, hf]
          have hco1 : (checkOp fs p c).1 = false := by rw [hco]
          have hco2 : (checkOp fs p c).2 = [] := by rw [hco]
          have hcoU1 : (checkOp fs p (updateAll fs c)).1 = false := by rw [hcoU]
          have hcoU2 : (checkOp fs p (updateAll fs c)).2 = [] := by rw [hcoU]
          constructor
          · rw [cauiLoopOps_cons, checkPhaseOps_cons, hco1, hco2]
            simpa [applyOps_cons, applyOps_nil, applyOp_marker] using (ih c hnodup).1
          · rw [cauiLoopOps_cons, checkPhaseOps_cons, hcoU1, hcoU2, hco1, hco2]
            simpa [applyOps_cons, applyOps_nil, applyOp_marker] using (ih c hnodup).2
      | some row =>
          have hpe : row.path = p := by
            simpa using find?_pred (fun r => r.path == p) c row hf
          by_cases hn : row.needUpdate = true
          · -- already flagged row: on the updated table the checker sees
            -- the refreshed version and reports agreement
            have hcoU : checkOp fs p (updateAll fs c) = (false, []) := by
              simp [checkOp, find?_updateAll, hf, hn, hpe]
            have hcoU1 : (checkOp fs p (updateAll fs c)).1 = false := by rw [hcoU]
            have hcoU2 : (checkOp fs p (updateAll fs c)).2 = [] := by rw [hcoU]
            have hflagid : flagPath p c = c :=
              flagPath_eq_self p c hnodup row hf hn
            by_cases hv : (row.version == fs p) = true
            · have hco : checkOp fs p c = (false, []) := by simp [checkOp, hf, hv]
              have hco1 : (checkOp fs p c).1 = false := by rw [hco]
              have hco2 : (checkOp fs p c).2 = [] := by rw [hco]
              constructor
              · rw [cauiLoopOps_cons, checkPhaseOps_cons, hco1, hco2]
                simpa [applyOps_cons, applyOps_nil, applyOp_marker] using (ih c hnodup).1
              · rw [cauiLoopOps_cons, checkPhaseOps_cons, hcoU1, hcoU2, hco1, hco2]
                simpa [applyOps_cons, applyOps_nil, applyOp_marker] using (ih c hnodup).2
            · have hco : checkOp fs p c = (true, [Op.flag p]) := by
                simp [checkOp, hf, hv]
              have hco1 : (checkOp fs p c).1 = true := by rw [hco]
              have hco2 : (checkOp fs p c).2 = [Op.flag p] := by rw [hco]
              have hpass : applyOps (updatePassOps fs c) c = updateAll fs c :=
                applyOps_updatePassOps fs c hnodup
              constructor
              · rw [cauiLoopOps_cons, checkPhaseOps_cons, hco1, hco2]
                simpa [applyOps_cons, applyOps_nil, applyOp_marker, applyOp_flag,
                  applyOps_append, hflagid, hpass] using (ih c hnodup).2
              · rw [cauiLoopOps_cons, checkPhaseOps_cons, hcoU1, hcoU2, hco1, hco2]
                simpa [applyOps_cons, applyOps_nil, applyOp_marker, applyOp_flag,
                  hflagid] using (ih c hnodup).2
          · -- unflagged row: the one-pass update leaves it unchanged and
            -- the checker reports the same boolean on both sides
            have hfU : (updateAll fs c).find? (fun r => r.path == p) = some row := by
              rw [find?_updateAll, hf]
              simp [hn]
            by_cases hv : (row.version == fs p) = true
            · have hco : checkOp fs p c = (false, []) := by simp [checkOp, hf, hv]
              have hcoU : checkOp fs p (updateAll fs c) = (false, []) := by
                simp [checkOp, hfU, hv]
              have hco1 : (checkOp fs p c).1 = false := by rw [hco]
              have hco2 : (checkOp fs p c).2 = [] := by rw [hco]
              have hcoU1 : (checkOp fs p (updateAll fs c)).1 = false := by rw [hcoU]
              have hcoU2 : (checkOp fs p (updateAll fs c)).2 = [] := by rw [hcoU]
              constructor
              · rw [cauiLoopOps_cons, checkPhaseOps_cons, hco1, hco2]
                simpa [applyOps_cons, applyOps_nil, applyOp_marker] using (ih c hnodup).1
              · rw [cauiLoopOps_cons, checkPhaseOps_cons, hcoU1, hcoU2, hco1, hco2]
                simpa [applyOps_cons, applyOps_nil, applyOp_marker] using (ih c hnodup).2
            · have hco : checkOp fs p c = (true, [Op.flag p]) := by
                simp [checkOp, hf, hv]
              have hcoU : checkOp fs p (updateAll fs c) = (true, [Op.flag p]) := by
                simp [checkOp, hfU, hv]
              have hco1 : (checkOp fs p c).1 = true := by rw [hco]
              have hco2 : (checkOp fs p c).2 = [Op.flag p] := by rw [hco]
              have hcoU1 : (checkOp fs p (updateAll fs c)).1 = true := by rw [hcoU]
              have hcoU2 : (checkOp fs p (updateAll fs c)).2 = [Op.flag p] := by rw [hcoU]
              have hnodup1 : ((flagPath p c).map (fun r => r.path)).Nodup := by
                rw [paths_flagPath]
                exact hnodup
              have hnodup1U : ((flagPath p (updateAll fs c)).map (fun r => r.path)).Nodup := by
                rw [paths_flagPath, paths_updateAll]
                exact hnodup
              have hpass1 : applyOps (updatePassOps fs (flagPath p c)) (flagPath p c) =
                  updateAll fs (flagPath p c) :=
                applyOps_updatePassOps fs _ hnodup1
              have hpass1U : applyOps (updatePassOps fs (flagPath p (updateAll fs c)))
                  (flagPath p (updateAll fs c)) =
                  updateAll fs (flagPath p (updateAll fs c)) :=
                applyOps_updatePassOps fs _ hnodup1U
              have hUf : updateAll fs (flagPath p (updateAll fs c)) =
                  updateAll fs (flagPath p c) := updateAll_flag_updateAll fs p c
              constructor
              · rw [cauiLoopOps_cons, checkPhaseOps_cons, hco1, hco2]
                simpa [applyOps_cons, applyOps_nil, applyOp_marker, applyOp_flag,
                  applyOps_append, hpass1] using (ih (flagPath p c) hnodup1).2
              · rw [cauiLoopOps_cons, checkPhaseOps_cons, hcoU1, hcoU2, hco1, hco2]
                simpa [applyOps_cons, applyOps_nil, applyOp_marker, applyOp_flag,
                  applyOps_append, hpass1U, hUf] using (ih (flagPath p c) hnodup1).2

/-- The state reached by the strict check phase is the state its own
operations produce. -/
theorem applyOps_checkPhase (fs : String → Nat) (queue : List String) :
    ∀ files, applyOps (checkPhaseOps fs queue files).1 files =
      (checkPhaseOps fs queue files).2.2 := by
  induction queue with
  | nil => intro files; rfl
  | cons p ps ih =>
      intro files
      rw [checkPhaseOps_cons]
      simp only [applyOps_append, applyOps_cons, applyOp_marker]
      exact ih _

/-- Paths survive the strict check phase. -/
theorem paths_checkPhase (fs : String → Nat) (queue : List String)
    (files : List FileRow) :
    ((checkPhaseOps fs queue files).2.2).map (fun r => r.path) =
      files.map (fun r => r.path) := by
  rw [← applyOps_checkPhase]
  exact paths_applyOps _ files

/-- When the strict check phase reports no disagreement, the interleaved
loop performs exactly the check operations. -/
theorem loop_eq_checkOps_of_no_true (fs : String → Nat) (queue : List String) :
    ∀ files, (checkPhaseOps fs queue files).2.1 = false →
      cauiLoopOps fs queue files = (checkPhaseOps fs queue files).1 := by
  induction queue with
  | nil => intro files _; rfl
  | cons p ps ih =>
      intro files hfalse
      have h2 : ((checkOp fs p files).1 ||
          (checkPhaseOps fs ps (applyOps (checkOp fs p files).2 files)).2.1) = false :=
        hfalse
      rcases Bool.or_eq_false_iff.mp h2 with ⟨hd, hrest⟩
      rw [cauiLoopOps_cons, checkPhaseOps_cons, hd]
      simp [applyOps_nil, ih _ hrest]

/-!
Claim theorems.
-/

/-- Claim C3: the claim says opening against a corrupt on-disk store must
not raise - log, best-effort delete, reopen fresh.  The code instead
raises: in the DatabaseError handler the expression self.db.close()
looks up an attribute db that the object never defines (only _db is ever
set), so an AttributeError escapes to the caller and no recovery is
performed.  The claim is right about the intent (the handler logs a
warning and tries to rebuild) and the code is wrong. -/
theorem c3_corrupt_on_disk_open_raises :
    _db_check "index.db" Store.corrupt = Except.error PyErr.attributeError ∧
    ∀ s : Session, _db_check "index.db" Store.corrupt ≠ Except.ok s := by
  refine ⟨by simp [_db_check], ?_⟩
  intro s h
  simp [_db_check] at h

/-- Claim C4: when the stored db_version property is absent or differs
from the literal DB_VERSION, opening performs the full destructive
rebuild: every table dropped, the property table recreated containing
db_version = 0.7, the indexer pipeline reconstructed with fresh schemas,
and the result committed. -/
theorem c4_version_mismatch_rebuild (dbpath : String) (db : DB)
    (h : get_property db "db_version" ≠ Except.ok (some DB_VERSION)) :
    _db_check dbpath (Store.readable db) = Except.ok ⟨freshDB, freshDB⟩ ∧
    freshDB.props = some [⟨"db_version", DB_VERSION⟩] ∧
    freshDB.files = [] ∧ freshDB.pages = [⟨ROOT_ID, "", false⟩] ∧
    freshDB.links = [] ∧ freshDB.tags = [] := by
  refine ⟨?_, rfl, rfl, rfl, rfl, rfl⟩
  show (match get_property db "db_version" with
    | Except.ok v =>
        if v = some DB_VERSION then Except.ok (⟨db, db⟩ : Session)
        else Except.ok (_db_init ⟨db, db⟩)
    | Except.error _ => Except.ok (_db_init ⟨db, db⟩)) =
      Except.ok (⟨freshDB, freshDB⟩ : Session)
  cases hg : get_property db "db_version" with
  | ok v =>
      have hv : ¬(v = some DB_VERSION) := by
        intro heq
        exact h (by rw [hg, heq])
      show (if v = some DB_VERSION then Except.ok (⟨db, db⟩ : Session)
        else Except.ok (_db_init ⟨db, db⟩)) = Except.ok (⟨freshDB, freshDB⟩ : Session)
      rw [if_neg hv]
      rfl
  | error e => rfl

/-- Witness for C4 at a stale concrete database. -/
theorem c4_version_mismatch_rebuild_witness :
    get_property exDbStale "db_version" ≠ Except.ok (some DB_VERSION) ∧
    _db_check "index.db" (Store.readable exDbStale) = Except.ok ⟨freshDB, freshDB⟩ := by
  have hne : get_property exDbStale "db_version" ≠ Except.ok (some DB_VERSION) := by
    rw [show get_property exDbStale "db_version" = Except.ok (some "0.6") from rfl]
    simp [DB_VERSION]
  exact ⟨hne, (c4_version_mismatch_rebuild "index.db" exDbStale hne).1⟩

/-- Claim C6: update_file for a node with no files row that does not
exist in storage is a complete no-op - session (committed and current)
unchanged, no notification, no error. -/
theorem c6_update_file_noop (node : Node) (s : Session)
    (h1 : s.current.files.find? (fun r => r.path == node.path) = none)
    (h2 : node.existsOnDisk = false) :
    update_file node s = (s, [], none) := by
  unfold update_file
  rw [h1, h2]

/-- Witness for C6 on a fresh database. -/
theorem c6_update_file_noop_witness :
    freshDB.files.find? (fun r => r.path == exNodeC6.path) = none ∧
    exNodeC6.existsOnDisk = false ∧
    update_file exNodeC6 ⟨freshDB, freshDB⟩ = (⟨freshDB, freshDB⟩, [], none) :=
  ⟨rfl, rfl, c6_update_file_noop exNodeC6 ⟨freshDB, freshDB⟩ rfl rfl⟩

/-- Claim C7: set_property followed by get_property returns the stored
value for any non-None value, whether or not the key was present, and
set_property with None deletes the row so get_property returns absent. -/
theorem c7_property_roundtrip (db : DB) (rows : List PropRow) (k v : String)
    (h : db.props = some rows) :
    (∃ db1, set_property db k (some v) = Except.ok db1 ∧
      get_property db1 k = Except.ok (some v)) ∧
    (∃ db2, set_property db k none = Except.ok db2 ∧
      get_property db2 k = Except.ok none) := by
  constructor
  · refine ⟨{ db with props := some (rows.filter (fun r => r.key != k) ++ [⟨k, v⟩]) }, ?_, ?_⟩
    · unfold set_property
      rw [h]
    · show Except.ok ((((rows.filter (fun r => r.key != k)) ++
        [(⟨k, v⟩ : PropRow)]).find? (fun r => r.key == k)).map (fun r => r.value)) =
          Except.ok (some v)
      rw [find?_filter_ne_append]
      rfl
  · refine ⟨{ db with props := some (rows.filter (fun r => r.key != k)) }, ?_, ?_⟩
    · unfold set_property
      rw [h]
    · show Except.ok (((rows.filter (fun r => r.key != k)).find?
        (fun r => r.key == k)).map (fun r => r.value)) = Except.ok none
      rw [find?_filter_ne]
      rfl

/-- Witness for C7 at a concrete database and key. -/
theorem c7_property_roundtrip_witness :
    exDbEmptyProps.props = some [] ∧
    (∃ db1, set_property exDbEmptyProps "loc" (some "en") = Except.ok db1 ∧
      get_property db1 "loc" = Except.ok (some "en")) ∧
    (∃ db2, set_property exDbEmptyProps "loc" none = Except.ok db2 ∧
      get_property db2 "loc" = Except.ok none) :=
  ⟨rfl, (c7_property_roundtrip exDbEmptyProps [] "loc" "en" rfl).1,
    (c7_property_roundtrip exDbEmptyProps [] "loc" "en" rfl).2⟩

/-- Claim C8: structural corruption of an in-memory store fails the
assertion (line 83) instead of entering the drop-file-and-rebuild path:
the open raises AssertionError and never returns a rebuilt session. -/
theorem c8_corrupt_in_memory_asserts :
    _db_check ":memory:" Store.corrupt = Except.error PyErr.assertionError ∧
    ∀ s : Session, _db_check ":memory:" Store.corrupt ≠ Except.ok s := by
  refine ⟨by simp [_db_check], ?_⟩
  intro s h
  simp [_db_check] at h

/-- Claim C9: flag_reindex is behaviorally identical to flush - both are
the full destructive reset (_db_init): all tables dropped and recreated,
the property table reseeded with the current version, committed. -/
theorem c9_flag_reindex_is_flush (s : Session) :
    flag_reindex s = flush s ∧ flush s = _db_init s ∧
    (flag_reindex s).current = freshDB ∧
    (flag_reindex s).committed = (flag_reindex s).current ∧
    (flag_reindex s).current.props = some [⟨"db_version", DB_VERSION⟩] ∧
    (flag_reindex s).current.files = [] :=
  ⟨rfl, rfl, rfl, rfl, rfl, rfl⟩

/-- Claim C10: calling update_file with an argument that is neither a
File nor a Folder, when a row exists or the node exists in storage,
raises TypeError after the start-update marker was emitted: the event
list is exactly the unbalanced start-update, no finish-update and no
changed notification fire, and the session (in particular the committed
state) is unchanged, so nothing was committed. -/
theorem c10_update_file_type_error (node : Node) (s : Session)
    (h1 : node.kind = NodeKind.other)
    (h2 : ¬(s.current.files.find? (fun r => r.path == node.path) = none ∧
      node.existsOnDisk = false)) :
    update_file node s = (s, [Ev.startUpdate], some PyErr.typeError) := by
  unfold update_file
  cases hf : s.current.files.find? (fun r => r.path == node.path) with
  | none =>
      cases he : node.existsOnDisk with
      | false => exact absurd ⟨hf, he⟩ h2
      | true => rw [h1]
  | some r => rw [h1]

/-- Witness for C10 on a fresh database and an existing non-file
non-folder node. -/
theorem c10_update_file_type_error_witness :
    exNodeC10.kind = NodeKind.other ∧
    ¬(freshDB.files.find? (fun r => r.path == exNodeC10.path) = none ∧
      exNodeC10.existsOnDisk = false) ∧
    update_file exNodeC10 ⟨freshDB, freshDB⟩ =
      (⟨freshDB, freshDB⟩, [Ev.startUpdate], some PyErr.typeError) :=
  ⟨rfl, by decide, c10_update_file_type_error exNodeC10 ⟨freshDB, freshDB⟩ rfl (by decide)⟩

/-- Claim C1: in every run of check_and_update_iter the db.commit and
the commit notification each occur exactly once, at the very end of the
yielded sequence (after every marker), unconditionally - also when the
check phase found no disagreement; and a caller that stops after
consuming any k markers (at most the total number of markers, i.e.
before driving the generator to exhaustion) executes no commit, so the
committed store is exactly its pre-call state; only the fully drained
run commits, after which the committed state equals the current one. -/
theorem c1_commit_once_at_end (fs : String → Nat) (queue : List String)
    (s : Session) (k : Nat)
    (hk : k ≤ (check_and_update_iterOps fs queue s.current.files).count Op.marker) :
    (check_and_update_iterOps fs queue s.current.files).count Op.commitDB = 1 ∧
    (check_and_update_iterOps fs queue s.current.files).count Op.emitCommit = 1 ∧
    (∃ body, check_and_update_iterOps fs queue s.current.files =
      body ++ [Op.commitDB, Op.emitCommit] ∧
      Op.commitDB ∉ body ∧ Op.emitCommit ∉ body) ∧
    (runSession s (takeMarkers k
      (check_and_update_iterOps fs queue s.current.files))).committed = s.committed ∧
    (runSession s (check_and_update_iterOps fs queue s.current.files)).committed =
      (runSession s (check_and_update_iterOps fs queue s.current.files)).current := by
  have hnotin : Op.commitDB ∉ cauiLoopOps fs queue s.current.files := fun hm =>
    (mem_cauiLoopOps fs queue s.current.files Op.commitDB hm).1 rfl
  have hnotin2 : Op.emitCommit ∉ cauiLoopOps fs queue s.current.files := fun hm =>
    (mem_cauiLoopOps fs queue s.current.files Op.emitCommit hm).2 rfl
  have hdef : check_and_update_iterOps fs queue s.current.files =
      cauiLoopOps fs queue s.current.files ++ [Op.commitDB, Op.emitCommit] := rfl
  have hcnt : (check_and_update_iterOps fs queue s.current.files).count Op.commitDB = 1 := by
    rw [hdef, List.count_append, List.count_eq_zero.mpr hnotin]
    rfl
  have hcnt2 : (check_and_update_iterOps fs queue s.current.files).count Op.emitCommit = 1 := by
    rw [hdef, List.count_append, List.count_eq_zero.mpr hnotin2]
    rfl
  have hmark : (check_and_update_iterOps fs queue s.current.files).count Op.marker =
      (cauiLoopOps fs queue s.current.files).count Op.marker := by
    rw [hdef, List.count_append]
    rfl
  have htake : takeMarkers k (check_and_update_iterOps fs queue s.current.files) =
      takeMarkers k (cauiLoopOps fs queue s.current.files) := by
    rw [hdef]
    exact takeMarkers_append _ _ k (by rw [← hmark]; exact hk)
  have hcancel : (runSession s (takeMarkers k
      (check_and_update_iterOps fs queue s.current.files))).committed = s.committed := by
    rw [htake]
    apply runSession_committed
    intro hm
    exact hnotin (takeMarkers_mem _ k Op.commitDB hm)
  have hdrain : (runSession s (check_and_update_iterOps fs queue s.current.files)).committed =
      (runSession s (check_and_update_iterOps fs queue s.current.files)).current := by
    rw [hdef, runSession, List.foldl_append]
    rfl
  exact ⟨hcnt, hcnt2, ⟨cauiLoopOps fs queue s.current.files, hdef, hnotin, hnotin2⟩,
    hcancel, hdrain⟩

/-- Witness for C1: a one-item queue whose single row disagrees, driven
for one of its two markers and then abandoned: the committed state is
untouched. -/
theorem c1_commit_once_at_end_witness :
    1 ≤ (check_and_update_iterOps exFs0 ["a"]
      (⟨exDbC1, exDbC1⟩ : Session).current.files).count Op.marker ∧
    ((check_and_update_iterOps exFs0 ["a"]
        (⟨exDbC1, exDbC1⟩ : Session).current.files).count Op.commitDB = 1 ∧
    (check_and_update_iterOps exFs0 ["a"]
        (⟨exDbC1, exDbC1⟩ : Session).current.files).count Op.emitCommit = 1 ∧
    (∃ body, check_and_update_iterOps exFs0 ["a"]
        (⟨exDbC1, exDbC1⟩ : Session).current.files =
      body ++ [Op.commitDB, Op.emitCommit] ∧
      Op.commitDB ∉ body ∧ Op.emitCommit ∉ body) ∧
    (runSession ⟨exDbC1, exDbC1⟩ (takeMarkers 1
      (check_and_update_iterOps exFs0 ["a"]
        (⟨exDbC1, exDbC1⟩ : Session).current.files))).committed =
      (⟨exDbC1, exDbC1⟩ : Session).committed ∧
    (runSession ⟨exDbC1, exDbC1⟩ (check_and_update_iterOps exFs0 ["a"]
        (⟨exDbC1, exDbC1⟩ : Session).current.files)).committed =
      (runSession ⟨exDbC1, exDbC1⟩ (check_and_update_iterOps exFs0 ["a"]
        (⟨exDbC1, exDbC1⟩ : Session).current.files)).current) :=
  ⟨by decide, c1_commit_once_at_end exFs0 ["a"] ⟨exDbC1, exDbC1⟩ 1 (by decide)⟩

/-- Counterexample to claim C2 as stated: with two queued paths that
both disagree, the generator does not pull the checker's entire boolean
sequence before updating - its operation trace updates path a (a write
and its marker) immediately after the first checker boolean, before the
second checker item is pulled, and contains two update passes; the trace
of the claimed strict two-phase protocol differs. -/
theorem c2_counterexample :
    check_and_update_iterOps exFs1 ["a", "b"] exFilesC2 ≠
      claimedTwoPhaseOps exFs1 ["a", "b"] exFilesC2 ∧
    check_and_update_iterOps exFs1 ["a", "b"] exFilesC2 =
      [Op.flag "a", Op.marker, Op.write "a" 1, Op.marker,
       Op.flag "b", Op.marker, Op.write "b" 1, Op.marker,
       Op.commitDB, Op.emitCommit] ∧
    claimedTwoPhaseOps exFs1 ["a", "b"] exFilesC2 =
      [Op.flag "a", Op.marker, Op.flag "b", Op.marker,
       Op.write "a" 1, Op.marker, Op.write "b" 1, Op.marker,
       Op.commitDB, Op.emitCommit] := by
  refine ⟨by decide, by decide, by decide⟩

/-- Claim C2, amended: check_and_update_iter interleaves the two phases -
whenever a pulled checker boolean is true, a full incremental update pass
over the files indexer (its worklist re-derived from the persisted
NEED_UPDATE flags) runs immediately, before the next checker item is
pulled, so several passes may occur; if no pulled boolean was true the
run performs no update work and its trace coincides exactly with the
strict two-phase description; and when the cached paths are pairwise
distinct the final files table of the interleaved run equals that of the
claimed strict two-phase protocol (complete check first, then one
conditional pass). -/
theorem c2_interleaved_twophase (fs : String → Nat) (queue : List String)
    (files : List FileRow) (h : (files.map (fun r => r.path)).Nodup) :
    applyOps (check_and_update_iterOps fs queue files) files =
      applyOps (claimedTwoPhaseOps fs queue files) files ∧
    ((checkPhaseOps fs queue files).2.1 = false →
      check_and_update_iterOps fs queue files = claimedTwoPhaseOps fs queue files) := by
  constructor
  · have htail : ∀ x : List FileRow, applyOps [Op.commitDB, Op.emitCommit] x = x :=
      fun x => rfl
    have hL : applyOps (check_and_update_iterOps fs queue files) files =
        applyOps (cauiLoopOps fs queue files) files := by
      rw [check_and_update_iterOps, applyOps_append, htail]
    have hnodup2 : (((checkPhaseOps fs queue files).2.2).map (fun r => r.path)).Nodup := by
      rw [paths_checkPhase]
      exact h
    have hR : applyOps (claimedTwoPhaseOps fs queue files) files =
        (if (checkPhaseOps fs queue files).2.1 = true
          then updateAll fs (checkPhaseOps fs queue files).2.2
          else (checkPhaseOps fs queue files).2.2) := by
      rw [claimedTwoPhaseOps]
      rw [applyOps_append, applyOps_append, htail, applyOps_checkPhase]
      by_cases hany : (checkPhaseOps fs queue files).2.1 = true
      · rw [if_pos hany, if_pos hany]
        exact applyOps_updatePassOps fs _ hnodup2
      · rw [if_neg hany, if_neg hany]
        rfl
    rw [hL, hR]
    exact (caui_sim fs queue files h).1
  · intro hfalse
    rw [check_and_update_iterOps, claimedTwoPhaseOps,
      loop_eq_checkOps_of_no_true fs queue files hfalse, hfalse]
    simp

/-- Witness for the amended C2 at the concrete two-path input. -/
theorem c2_interleaved_twophase_witness :
    ((exFilesC2.map (fun r => r.path)).Nodup) ∧
    (applyOps (check_and_update_iterOps exFs1 ["a", "b"] exFilesC2) exFilesC2 =
      applyOps (claimedTwoPhaseOps exFs1 ["a", "b"] exFilesC2) exFilesC2 ∧
    ((checkPhaseOps exFs1 ["a", "b"] exFilesC2).2.1 = false →
      check_and_update_iterOps exFs1 ["a", "b"] exFilesC2 =
        claimedTwoPhaseOps exFs1 ["a", "b"] exFilesC2)) :=
  ⟨by decide, c2_interleaved_twophase exFs1 ["a", "b"] exFilesC2 (by decide)⟩

/-- Counterexample to claim C5 as stated: in exDbC5 the name Q belongs to
a content-less placeholder page that is kept alive by a link from the
content page A, so the premises of the claim hold (P and Q are distinct
and neither names a page with real content); yet after
touch_current_page_placeholder for P and then for Q, the row lookup for
Q succeeds and no anchor is inserted - zero root-sourced anchor edges
remain instead of the claimed exactly one. -/
theorem c5_counterexample :
    ("P" : String) ≠ "Q" ∧
    (∀ p ∈ exDbC5.pages, (p.name = "P" ∨ p.name = "Q") → p.hasContent = false) ∧
    rootAnchors (touch_current_page_placeholder "Q"
      (touch_current_page_placeholder "P" ⟨exDbC5, exDbC5⟩)).current = [] := by
  refine ⟨by decide, by decide, by decide⟩

/-- Claim C5, amended: assuming additionally that no page named P or Q
exists at all initially (the counterexample shows that a pre-existing
content-less page named Q prevents the anchor from being created) and
that every link targets an existing page, touching P and then Q leaves
exactly one root-sourced anchor edge root -> Q (pointing at Q's fresh
content-less placeholder page), removes P's placeholder (which has no
other incoming edges), and commits; after the first call, too, exactly
one anchor exists (so at most one root-sourced anchor at any time). -/
theorem c5_placeholder_exclusivity (P Q : String) (s0 : Session)
    (hPQ : P ≠ Q)
    (hP : ∀ p ∈ s0.current.pages, p.name ≠ P)
    (hQ : ∀ p ∈ s0.current.pages, p.name ≠ Q)
    (hT : ∀ l ∈ s0.current.links, ∃ p ∈ s0.current.pages, p.id = l.target) :
    (rootAnchors (touch_current_page_placeholder P s0).current).length = 1 ∧
    (∃ qid,
      rootAnchors (touch_current_page_placeholder Q
          (touch_current_page_placeholder P s0)).current =
        [⟨ROOT_ID, qid, LinkRel.absolute, Q⟩] ∧
      ∃ pg ∈ (touch_current_page_placeholder Q
          (touch_current_page_placeholder P s0)).current.pages,
        pg.id = qid ∧ pg.name = Q ∧ pg.hasContent = false) ∧
    (∀ pg ∈ (touch_current_page_placeholder Q
        (touch_current_page_placeholder P s0)).current.pages, pg.name ≠ P) ∧
    (touch_current_page_placeholder Q (touch_current_page_placeholder P s0)).committed =
      (touch_current_page_placeholder Q (touch_current_page_placeholder P s0)).current := by
  set s1 : Session := touch_current_page_placeholder P s0 with hs1
  set d2 : DB := cleanup_placeholders (delRootLinks s0.current) with hd2
  -- stage one facts
  have hd2pages : ∀ p ∈ d2.pages, p ∈ s0.current.pages := fun p hp =>
    cleanup_pages_sub (delRootLinks s0.current) p hp
  have h_nonroot_d2 : ∀ l ∈ d2.links, l.source ≠ ROOT_ID := fun l hl =>
    (delRoot_links_mem s0.current l (cleanup_links_sub (delRootLinks s0.current) l hl)).2
  have hT1 : ∀ l ∈ (delRootLinks s0.current).links,
      ∃ p ∈ (delRootLinks s0.current).pages, p.id = l.target := fun l hl =>
    hT l (delRoot_links_mem s0.current l hl).1
  have htargets2 : ∀ l ∈ d2.links, ∃ p ∈ d2.pages, p.id = l.target :=
    cleanup_targets (delRootLinks s0.current) hT1
  have hnameP2 : ∀ p ∈ d2.pages, p.name ≠ P := fun p hp => hP p (hd2pages p hp)
  have e1p : s1.current.pages = d2.pages ++ [⟨newPageId d2.pages, P, false⟩] :=
    touchInsert_pages_not_found P d2 hnameP2
  have e1l : s1.current.links =
      d2.links ++ [⟨ROOT_ID, newPageId d2.pages, LinkRel.absolute, P⟩] :=
    touchInsert_links_not_found P d2 hnameP2
  -- the anchor list after the first call
  have hanch1 : rootAnchors s1.current =
      [⟨ROOT_ID, newPageId d2.pages, LinkRel.absolute, P⟩] := by
    unfold rootAnchors
    rw [e1l, List.filter_append,
      filter_nil_of_false _ d2.links
        (fun l hl => beq_eq_false_iff_ne.mpr (h_nonroot_d2 l hl))]
    simp [ROOT_ID]
  -- stage two
  set d5 : DB := cleanup_placeholders (delRootLinks s1.current) with hd5
  have e2roots : (delRootLinks s1.current).links = d2.links := by
    rw [delRoot_links_eq, e1l, List.filter_append,
      filter_self_of_true _ d2.links
        (fun l hl => by rw [beq_eq_false_iff_ne.mpr (h_nonroot_d2 l hl)]; rfl)]
    simp [ROOT_ID]
  have hne0 : newPageId d2.pages ≠ ROOT_ID := by simp [newPageId, ROOT_ID]
  have hfresh : ∀ l ∈ d2.links, (l.target == newPageId d2.pages) = false := by
    intro l hl
    obtain ⟨p, hp, hpt⟩ := htargets2 l hl
    have hlt := newPageId_gt d2.pages p hp
    rw [beq_eq_false_iff_ne, ← hpt]
    exact Nat.ne_of_lt hlt
  have hkeep1 : keepPage d2.links ⟨newPageId d2.pages, P, false⟩ = false :=
    keepPage_eq_false d2.links _ rfl (beq_eq_false_iff_ne.mpr hne0) hfresh
  have e5pages : d5.pages = d2.pages.filter (keepPage d2.links) := by
    rw [hd5, cleanup_pages_eq, delRoot_pages_eq, e2roots, e1p, List.filter_append]
    simp [hkeep1]
  have h5links : ∀ l ∈ d5.links, l ∈ d2.links := by
    intro l hl
    have h := cleanup_links_sub (delRootLinks s1.current) l hl
    rwa [e2roots] at h
  have hnameQ5 : ∀ p ∈ d5.pages, p.name ≠ Q := by
    intro p hp
    rw [e5pages] at hp
    exact hQ p (hd2pages p (List.mem_of_mem_filter hp))
  have e2p : (touch_current_page_placeholder Q s1).current.pages =
      d5.pages ++ [⟨newPageId d5.pages, Q, false⟩] :=
    touchInsert_pages_not_found Q d5 hnameQ5
  have e2l : (touch_current_page_placeholder Q s1).current.links =
      d5.links ++ [⟨ROOT_ID, newPageId d5.pages, LinkRel.absolute, Q⟩] :=
    touchInsert_links_not_found Q d5 hnameQ5
  have hanch2 : rootAnchors (touch_current_page_placeholder Q s1).current =
      [⟨ROOT_ID, newPageId d5.pages, LinkRel.absolute, Q⟩] := by
    unfold rootAnchors
    rw [e2l, List.filter_append,
      filter_nil_of_false _ d5.links
        (fun l hl => beq_eq_false_iff_ne.mpr (h_nonroot_d2 l (h5links l hl)))]
    simp [ROOT_ID]
  refine ⟨?_, ⟨newPageId d5.pages, hanch2, ⟨newPageId d5.pages, Q, false⟩, ?_, rfl, rfl, rfl⟩,
    ?_, rfl⟩
  · rw [hanch1]
    rfl
  · rw [e2p]
    exact List.mem_append_right _ (List.mem_singleton_self _)
  · intro pg hpg
    rw [e2p] at hpg
    rcases List.mem_append.mp hpg with h | h
    · rw [e5pages] at h
      exact hP pg (hd2pages pg (List.mem_of_mem_filter h))
    · rw [List.mem_singleton.mp h]
      exact Ne.symm hPQ

/-- Witness for the amended C5 from a fresh database. -/
theorem c5_placeholder_exclusivity_witness :
    ("aa" : String) ≠ "bb" ∧
    ((rootAnchors (touch_current_page_placeholder "aa"
        (⟨freshDB, freshDB⟩ : Session)).current).length = 1 ∧
    (∃ qid,
      rootAnchors (touch_current_page_placeholder "bb"
          (touch_current_page_placeholder "aa" (⟨freshDB, freshDB⟩ : Session))).current =
        [⟨ROOT_ID, qid, LinkRel.absolute, "bb"⟩] ∧
      ∃ pg ∈ (touch_current_page_placeholder "bb"
          (touch_current_page_placeholder "aa" (⟨freshDB, freshDB⟩ : Session))).current.pages,
        pg.id = qid ∧ pg.name = "bb" ∧ pg.hasContent = false) ∧
    (∀ pg ∈ (touch_current_page_placeholder "bb"
        (touch_current_page_placeholder "aa" (⟨freshDB, freshDB⟩ : Session))).current.pages,
      pg.name ≠ "aa") ∧
    (touch_current_page_placeholder "bb"
        (touch_current_page_placeholder "aa" (⟨freshDB, freshDB⟩ : Session))).committed =
      (touch_current_page_placeholder "bb"
        (touch_current_page_placeholder "aa" (⟨freshDB, freshDB⟩ : Session))).current) :=
  ⟨by decide,
    c5_placeholder_exclusivity "aa" "bb" ⟨freshDB, freshDB⟩
      (by decide) (by decide) (by decide) (by decide)⟩

end Zim
